import Mathlib

/-!
Shallow embedding of the `VariableAnomalyMonitor` core
(`src/VariableAnomalyMonitor.cpp`, `src/VariableMonitor.cpp`) of the
hf-utils-general repository.

Modelling conventions:
* `uint32_t` timestamps and durations are `Nat`s; every C++ `uint32_t`
  subtraction is rendered by the modular `sub32`.
* The monitored value type `T` and C++ `double`/`float` are modelled by `ℚ`.
  The one place a C++ floating division can have a zero denominator inside
  the monitor (the incremental slope of `UpdateValue`, whose numerator is
  then also zero, i.e. an IEEE NaN) is modelled by `Option ℚ` with `none`
  playing the role of NaN: every ordered comparison against `none` is
  `false`, exactly as IEEE comparisons against NaN are.
* `GetElapsedTimeMsec()` (the platform clock) is passed explicitly as a
  `now : Nat` argument to every operation that reads it.
* `std::deque` front/back become `List` head/last; the sample deque is kept
  oldest-first exactly as in the source.
* Fallible queries with a boolean status plus an out-parameter are rendered
  as `Option` results (`none` = returned `false`, out-parameter untouched).
-/

/-- `2^32`, the modulus of `uint32_t` arithmetic. -/
def u32 : Nat := 4294967296

/-- `uint32_t` subtraction `a - b` (modular). -/
def sub32 (a b : Nat) : Nat := (a + (u32 - b % u32)) % u32

/-- The enum `SlopeCalculationType` of `VariableTrackerBase.h`. -/
inductive SlopeCalculationType : Type
  | AVERAGE
  | MAXIMUM
  | MINIMUM
  | CHANGE
  | LAST
deriving DecidableEq, Repr

/-- The enum `AveragingScheme` of `VariableTrackerBase.h`. -/
inductive AveragingScheme : Type
  | MEAN
  | MEDIAN
  | MODE
  | GEOMETRIC
  | HARMONIC
deriving DecidableEq, Repr

/-- The state of a `VariableAnomalyMonitor<T>` instance: the sample deque
`values` (oldest first) and the configuration / anomaly-record fields, in
the order they are declared in `VariableAnomalyMonitor.h`. -/
structure Monitor : Type where
  values : List (ℚ × Nat)
  minTimeBetweenUpdateSampleStoringMsec : Nat
  threshold : ℚ
  checkBelowThreshold : Bool
  thresholdTimePeriodMsec : Nat
  thresholdAnomalyDurationMsec : Nat
  lastThresholdAnomalyTimeMsec : Nat
  thresholdAnomalies : List Nat
  slopeLimit : ℚ
  useAbsoluteSlope : Bool
  checkBelowSlopeLim : Bool
  slopeTimePeriodMsec : Nat
  slopeAnomalyDurationMsec : Nat
  lastSlopeAnomalyTimeMsec : Nat
  slopeAnomalies : List Nat
deriving DecidableEq, Repr

/-- `static constexpr uint32_t MinTimeBetweenSamples = 1U;` -/
def MinTimeBetweenSamples : Nat := 1

/-- The `VariableAnomalyMonitor` constructor. -/
def mkMonitor (minTimeBetweenSampleStoreMsec : Nat) (thresholdArg : ℚ)
    (thresholdTimePeriodMsecArg : Nat) (thresholdAnomalyDurationMsecArg : Nat)
    (checkBelowThresholdArg : Bool) (slopeLimitArg : ℚ)
    (slopeTimePeriodMsecArg : Nat) (slopeAnomalyDurationMsecArg : Nat)
    (checkBelowSlopeThresholdArg : Bool) (useAbsoluteSlopeArg : Bool) : Monitor where
  values := []
  minTimeBetweenUpdateSampleStoringMsec :=
    max minTimeBetweenSampleStoreMsec MinTimeBetweenSamples
  threshold := thresholdArg
  checkBelowThreshold := checkBelowThresholdArg
  thresholdTimePeriodMsec := thresholdTimePeriodMsecArg
  thresholdAnomalyDurationMsec := thresholdAnomalyDurationMsecArg
  lastThresholdAnomalyTimeMsec := 0
  thresholdAnomalies := []
  slopeLimit := slopeLimitArg
  useAbsoluteSlope := useAbsoluteSlopeArg
  checkBelowSlopeLim := checkBelowSlopeThresholdArg
  slopeTimePeriodMsec := slopeTimePeriodMsecArg
  slopeAnomalyDurationMsec := slopeAnomalyDurationMsecArg
  lastSlopeAnomalyTimeMsec := 0
  slopeAnomalies := []

/-- `SetMinTimeBetweenUpdateStoreMsec`: stores the supplied value unmodified. -/
def SetMinTimeBetweenUpdateStoreMsec (m : Monitor) (minTimeBetweenUpdateMsec : Nat) : Monitor :=
  { m with minTimeBetweenUpdateSampleStoringMsec := minTimeBetweenUpdateMsec }

/-- The sample-insertion block of `UpdateValue` (lines 102-110): if the deque
is non-empty and the back entry carries the current timestamp, overwrite its
value; otherwise push the new pair to the back. -/
def storeSample (l : List (ℚ × Nat)) (newValue : ℚ) (currentTime : Nat) : List (ℚ × Nat) :=
  if l ≠ [] ∧ (l.getLastD (0, 0)).2 = currentTime then
    l.dropLast ++ [(newValue, currentTime)]
  else
    l ++ [(newValue, currentTime)]

/-- An IEEE-style extended value: a finite rational, a signed infinity, or
NaN. Used to model the C++ `double`/`float` divisions of the monitor, whose
denominators can be zero. -/
inductive FloatQ : Type
  | nan
  | pinf
  | ninf
  | fin (q : ℚ)
deriving DecidableEq, Repr

/-- IEEE division of a finite numerator by a finite non-negative
denominator: a genuine quotient when the denominator is non-zero, else
`±∞` or NaN by the numerator's sign. -/
def divFQ (num den : ℚ) : FloatQ :=
  if den = 0 then
    if 0 < num then FloatQ.pinf else if num < 0 then FloatQ.ninf else FloatQ.nan
  else
    FloatQ.fin (num / den)

/-- IEEE `fabs` on an extended value. -/
def absFQ : FloatQ → FloatQ
  | FloatQ.nan => FloatQ.nan
  | FloatQ.pinf => FloatQ.pinf
  | FloatQ.ninf => FloatQ.pinf
  | FloatQ.fin q => FloatQ.fin |q|

/-- IEEE `a > b` with a finite right operand: NaN compares `false`. -/
def gtFQ : FloatQ → ℚ → Bool
  | FloatQ.nan, _ => false
  | FloatQ.pinf, _ => true
  | FloatQ.ninf, _ => false
  | FloatQ.fin q, b => decide (b < q)

/-- IEEE `a < b` with a finite right operand: NaN compares `false`. -/
def ltFQ : FloatQ → ℚ → Bool
  | FloatQ.nan, _ => false
  | FloatQ.pinf, _ => false
  | FloatQ.ninf, _ => true
  | FloatQ.fin q, b => decide (q < b)

/-- The denominator of the incremental slope of `UpdateValue` (line 117):
`values.back().second - values.front().second` as `uint32_t`. -/
def updateSlopeDen (l : List (ℚ × Nat)) : Nat :=
  sub32 (l.getLastD (0, 0)).2 (l.headD (0, 0)).2

/-- The incremental slope of `UpdateValue` (line 117):
`(back.value - front.value) / double(back.ts - front.ts)`.
With exactly one stored sample the denominator is zero and the quotient is
the IEEE `0/0` NaN. -/
def updateSlope (l : List (ℚ × Nat)) : FloatQ :=
  divFQ ((l.getLastD (0, 0)).1 - (l.headD (0, 0)).1) (updateSlopeDen l : ℚ)

/-- The slope-anomaly test of `UpdateValue` (lines 119-139):
`(|slope| > |slopeLimit|) == !checkBelowSlopeLim` in absolute mode,
`(slope > slopeLimit) == !checkBelowSlopeLim` otherwise. -/
def slopeAnomalyCond (m : Monitor) (calculatedSlope : FloatQ) : Bool :=
  if m.useAbsoluteSlope then
    (gtFQ (absFQ calculatedSlope) |m.slopeLimit|) == !m.checkBelowSlopeLim
  else
    (gtFQ calculatedSlope m.slopeLimit) == !m.checkBelowSlopeLim

/-- The threshold-anomaly test of `UpdateValue` (line 144):
`checkBelowThreshold ? newValue < threshold : newValue > threshold`. -/
def thresholdViolation (m : Monitor) (newValue : ℚ) : Bool :=
  if m.checkBelowThreshold then decide (newValue < m.threshold)
  else decide (m.threshold < newValue)

/-- `CleanDeque` on the (value, timestamp) deque: pop from the front while
the front entry is older than `timeLimit` relative to `currentTime`. -/
def CleanDequePairs (l : List (ℚ × Nat)) (currentTime : Nat) (timeLimit : Nat) : List (ℚ × Nat) :=
  l.dropWhile (fun p => decide (timeLimit < sub32 currentTime p.2))

/-- `CleanDeque` on a timestamp deque. -/
def CleanDequeTimes (l : List Nat) (currentTime : Nat) (timeLimit : Nat) : List Nat :=
  l.dropWhile (fun t => decide (timeLimit < sub32 currentTime t))

/-- `Cleanup`: evict samples older than `max(slopeTimePeriodMsec,
thresholdTimePeriodMsec)` and anomaly records older than their anomaly
durations. -/
def Cleanup (m : Monitor) (now : Nat) : Monitor :=
  { m with
    values := CleanDequePairs m.values now (max m.slopeTimePeriodMsec m.thresholdTimePeriodMsec)
    slopeAnomalies := CleanDequeTimes m.slopeAnomalies now m.slopeAnomalyDurationMsec
    thresholdAnomalies := CleanDequeTimes m.thresholdAnomalies now m.thresholdAnomalyDurationMsec }

/-- `CleanupAll`: evict everything older than limit `0`. -/
def CleanupAll (m : Monitor) (now : Nat) : Monitor :=
  { m with
    values := CleanDequePairs m.values now 0
    slopeAnomalies := CleanDequeTimes m.slopeAnomalies now 0
    thresholdAnomalies := CleanDequeTimes m.thresholdAnomalies now 0 }

/-- The accepted-sample tail of `UpdateValue` (lines 102-157): store the
sample, classify the slope and threshold rules, then `Cleanup`. -/
def updateAccept (m : Monitor) (now : Nat) (newValue : ℚ) : Monitor :=
  let values1 := storeSample m.values newValue now
  let withSlope :=
    if slopeAnomalyCond m (updateSlope values1) then
      { m with values := values1, slopeAnomalies := m.slopeAnomalies ++ [now],
               lastSlopeAnomalyTimeMsec := now }
    else
      { m with values := values1, slopeAnomalies := [] }
  let withThr :=
    if thresholdViolation m newValue then
      { withSlope with thresholdAnomalies := withSlope.thresholdAnomalies ++ [now],
                       lastThresholdAnomalyTimeMsec := now }
    else
      { withSlope with thresholdAnomalies := [] }
  Cleanup withThr now

/-- `UpdateValue` (lines 91-158): throttle too-frequent updates, else
accept the sample; returns the status flag and the new state. -/
def UpdateValue (m : Monitor) (now : Nat) (newValue : ℚ) : Bool × Monitor :=
  if m.values ≠ [] ∧
      sub32 now ((m.values.getLastD (0, 0)).2) < m.minTimeBetweenUpdateSampleStoringMsec then
    (false, m)
  else
    (true, updateAccept m now newValue)

/-- `CheckAnomalyDuration` (lines 658-664). -/
def CheckAnomalyDuration (now : Nat) (anomaliesDeque : List Nat) (anomalyDuration : Nat) : Bool :=
  decide (anomaliesDeque ≠ []) && decide (anomalyDuration ≤ sub32 now (anomaliesDeque.headD 0))

/-- `CheckThreshold` (lines 273-281). -/
def CheckThreshold (m : Monitor) (now : Nat) : Bool × Monitor :=
  if CheckAnomalyDuration now m.thresholdAnomalies m.thresholdAnomalyDurationMsec then
    (true, { m with thresholdAnomalies := [] })
  else
    (false, m)

/-- `CheckSlope` (lines 488-497). -/
def CheckSlope (m : Monitor) (now : Nat) : Bool × Monitor :=
  if CheckAnomalyDuration now m.slopeAnomalies m.slopeAnomalyDurationMsec then
    (true, { m with slopeAnomalies := [] })
  else
    (false, m)

/-- The backward scan of `CheckIfValueConsistently` (lines 303-318), run on
the deque in newest-first order (`rbegin` to `rend`): `none` when some
examined sample fails the directional test (the C++ early `return false`),
otherwise `some` of the number of samples examined before the loop broke at
the first timestamp below `startTime`. -/
def consistScan (checkBelow : Bool) (thresholdValue : ℚ) (startTime : Nat) :
    List (ℚ × Nat) → Option Nat
  | [] => some 0
  | (value, timestamp) :: rest =>
    if timestamp < startTime then some 0
    else if (if checkBelow then decide (thresholdValue ≤ value) else decide (value ≤ thresholdValue)) then
      none
    else
      match consistScan checkBelow thresholdValue startTime rest with
      | none => none
      | some c => some (c + 1)

/-- `CheckIfValueConsistently` (lines 283-327). -/
def CheckIfValueConsistently (m : Monitor) (now : Nat) (checkBelow : Bool) (thresholdValue : ℚ)
    (durationMsec : Nat) (useCurrentTime : Bool) (minDataPoints : Nat) : Bool :=
  if m.values = [] then false
  else
    let endTime := if useCurrentTime then now else (m.values.getLastD (0, 0)).2
    let startTime := sub32 endTime durationMsec
    if sub32 (m.values.getLastD (0, 0)).2 (m.values.headD (0, 0)).2 < durationMsec then false
    else
      match consistScan checkBelow thresholdValue startTime m.values.reverse with
      | none => false
      | some c => decide (minDataPoints ≤ c) && decide (0 < c)

/-- The backward scan of `GetAverageValue` (lines 442-453), on the deque in
newest-first order: the count of samples in the time span and their sum. -/
def avgScan (startTime : Nat) : List (ℚ × Nat) → Nat × ℚ
  | [] => (0, 0)
  | (value, timestamp) :: rest =>
    if timestamp < startTime then (0, 0)
    else
      let cs := avgScan startTime rest
      (cs.1 + 1, cs.2 + value)

/-- `GetAverageValue` (lines 421-465). The C++ returns
`foundValuesInTimeSpan` after writing `sum / count` to the out-parameter;
`none` models every `return false` path. -/
def GetAverageValue (m : Monitor) (now : Nat) (durationMsec : Nat) (useCurrentTime : Bool)
    (minDataPoints : Nat) : Option ℚ :=
  if m.values = [] then none
  else
    let endTime := if useCurrentTime then now else (m.values.getLastD (0, 0)).2
    let startTime := sub32 endTime durationMsec
    if sub32 (m.values.getLastD (0, 0)).2 (m.values.headD (0, 0)).2 < durationMsec then none
    else
      let cs := avgScan startTime m.values.reverse
      if cs.1 < minDataPoints then none
      else if 0 < cs.1 then some (cs.2 / (cs.1 : ℚ)) else none

/-- `GetAverageSchemeValue` (lines 467-485): only `MEAN` is implemented;
every other scheme falls through to `return false`. -/
def GetAverageSchemeValue (m : Monitor) (now : Nat) (scheme : AveragingScheme)
    (durationMsec : Nat) (useCurrentTime : Bool) (minDataPoints : Nat) : Option ℚ :=
  match scheme with
  | AveragingScheme.MEAN => GetAverageValue m now durationMsec useCurrentTime minDataPoints
  | AveragingScheme.MEDIAN => none
  | AveragingScheme.MODE => none
  | AveragingScheme.GEOMETRIC => none
  | AveragingScheme.HARMONIC => none

/-- `GetSimpleSlopeOverDeltaTime` (lines 562-592): `none` = returned
`false`; `some s` = returned `true` with `calculatedSlope = s`. -/
def GetSimpleSlopeOverDeltaTime (m : Monitor) (now : Nat) (deltaTimeMsec : Nat)
    (useCurrentTime : Bool) : Option ℚ :=
  if m.values = [] then none
  else
    let endTime := if useCurrentTime then now else (m.values.getLastD (0, 0)).2
    let startTime := sub32 endTime deltaTimeMsec
    match m.values.find? (fun p => decide (startTime ≤ p.2)) with
    | none => none
    | some oldest =>
      if oldest.2 = endTime then none
      else some (((m.values.getLastD (0, 0)).1 - oldest.1) / (sub32 endTime oldest.2 : ℚ))

/-- The backward iterator walk of `GetAdvancedSlopeOverDeltaTime`
(lines 608-616), run on the deque in newest-first order: keep stepping to
older samples, and stop just after the first sample whose timestamp is at
or before `startTime`. -/
def backWalk (startTime : Nat) : List (ℚ × Nat) → List (ℚ × Nat)
  | [] => []
  | p :: rest => if p.2 ≤ startTime then [p] else p :: backWalk startTime rest

/-- The segment `[it, values.end())` of `GetAdvancedSlopeOverDeltaTime`,
oldest-first. -/
def advSeg (startTime : Nat) (l : List (ℚ × Nat)) : List (ℚ × Nat) :=
  (backWalk startTime l.reverse).reverse

/-- The moving average of `GetAdvancedSlopeOverDeltaTime`:
`std::accumulate(window, 0.0, +value) / windowSize`. -/
def windowAvg (w : List (ℚ × Nat)) (windowSize : Nat) : ℚ :=
  (w.foldl (fun acc p => acc + p.1) 0) / (windowSize : ℚ)

/-- The window-sliding loop of `GetAdvancedSlopeOverDeltaTime`
(lines 634-650): pop the front of the window, push the next sample, and
record `(currentAverage - previousAverage) / (window.back.ts - window.front.ts)`. -/
def slideLoop (windowSize : Nat) (window : List (ℚ × Nat)) (rest : List (ℚ × Nat))
    (previousAverage : ℚ) : List ℚ :=
  match rest with
  | [] => []
  | jt :: rest' =>
    let window' := window.tail ++ [jt]
    let currentAverage := windowAvg window' windowSize
    ((currentAverage - previousAverage) /
        ((sub32 (window'.getLastD (0, 0)).2 (window'.headD (0, 0)).2 : Nat) : ℚ)) ::
      slideLoop windowSize window' rest' currentAverage

/-- The `maxDifference` loop of the `CHANGE` branch of
`CalculateSlopeFromType` (lines 710-717). -/
def maxConsecDiffAux (prev : ℚ) (acc : ℚ) : List ℚ → ℚ
  | [] => acc
  | b :: rest => maxConsecDiffAux b (if acc < |b - prev| then |b - prev| else acc) rest

/-- `CalculateSlopeFromType` (lines 682-733): `none` on an empty slope
series, otherwise the reduction selected by `calcType`. -/
def CalculateSlopeFromType (slopes : List ℚ) (calcType : SlopeCalculationType) : Option ℚ :=
  match slopes with
  | [] => none
  | s :: rest =>
    some (match calcType with
      | SlopeCalculationType.AVERAGE => (slopes.foldl (· + ·) 0) / (slopes.length : ℚ)
      | SlopeCalculationType.MAXIMUM => rest.foldl max s
      | SlopeCalculationType.MINIMUM => rest.foldl min s
      | SlopeCalculationType.CHANGE => maxConsecDiffAux s 0 rest
      | SlopeCalculationType.LAST => slopes.getLastD 0)

/-- `GetAdvancedSlopeOverDeltaTime` (lines 596-653). -/
def GetAdvancedSlopeOverDeltaTime (m : Monitor) (now : Nat) (deltaTimeMsec : Nat)
    (resultCalcType : SlopeCalculationType) (windowSize : Nat) : Option ℚ :=
  if m.values = [] ∨ windowSize < 2 then none
  else
    let startTime := sub32 now deltaTimeMsec
    let seg := advSeg startTime m.values
    if (seg.length = m.values.length ∧ startTime < (seg.headD (0, 0)).2) ∨
        seg.length < windowSize then
      none
    else
      let window := seg.take windowSize
      let slopes := slideLoop windowSize window (seg.drop windowSize) (windowAvg window windowSize)
      CalculateSlopeFromType slopes resultCalcType

/-- The enum `AnomalyType` of `VariableMonitor.h`. -/
inductive AnomalyType : Type
  | AboveLimit
  | BelowLimit
deriving DecidableEq, Repr

/-- The enum `SlopeType` of `VariableMonitor.h`. -/
inductive SlopeType : Type
  | Absolute
  | Actual
deriving DecidableEq, Repr

/-- Whether the helper `IsSlopeAnomaly` of `VariableMonitor.cpp` reaches its
division `deltaValue / deltaTimeMsec`: its only guard is
`deltaTimeMsec >= 0.0F`. -/
def IsSlopeAnomalyReachesDivision (deltaTimeMsec : ℚ) : Bool :=
  decide (0 ≤ deltaTimeMsec)

/-- `IsSlopeAnomaly` of `VariableMonitor.cpp` (lines 9-40), with the
division modelled by `divFQ` (IEEE `±∞`/NaN on a zero denominator). -/
def IsSlopeAnomaly (deltaValue : ℚ) (deltaTimeMsec : ℚ) (slopeLimit : ℚ)
    (slopeType : SlopeType) (slopeAnomalyType : AnomalyType) : Bool :=
  if 0 ≤ deltaTimeMsec then
    if slopeType = SlopeType.Absolute then
      let calculatedSlope := absFQ (divFQ deltaValue deltaTimeMsec)
      if slopeAnomalyType = AnomalyType.AboveLimit then
        gtFQ calculatedSlope |slopeLimit|
      else
        ltFQ calculatedSlope |slopeLimit|
    else
      let calculatedSlope := divFQ deltaValue deltaTimeMsec
      if slopeAnomalyType = AnomalyType.AboveLimit then
        gtFQ calculatedSlope slopeLimit
      else
        ltFQ calculatedSlope slopeLimit
  else
    false

/-! ### Spec-side definitions

These definitions transcribe the specification's language (sorted stores,
trailing windows, moving-average slope series) independently of the
iterator-level code above, so the claim theorems can compare the two. -/

/-- The Sample Store invariant of spec §3: timestamps strictly increase
from oldest to newest (non-decreasing with no duplicates). -/
def TsSorted (l : List (ℚ × Nat)) : Prop :=
  List.Pairwise (fun a b => a.2 < b.2) l

instance (l : List (ℚ × Nat)) : Decidable (TsSorted l) := by
  unfold TsSorted; infer_instance

/-- All timestamps of the store are representable `uint32_t` values. -/
def TsBounded (l : List (ℚ × Nat)) : Prop :=
  ∀ p ∈ l, p.2 < u32

instance (l : List (ℚ × Nat)) : Decidable (TsBounded l) := by
  unfold TsBounded; infer_instance

/-- The end of a query's trailing window: the clock reading when
`useCurrentTime` is set, else the newest sample's timestamp. -/
def endTimeOf (m : Monitor) (now : Nat) (useCurrentTime : Bool) : Nat :=
  if useCurrentTime then now else (m.values.getLastD (0, 0)).2

/-- The samples inside the trailing window `[startTime, end]` of a store
whose timestamps do not exceed the window's end: those with
`startTime ≤ timestamp`. -/
def windowSamples (l : List (ℚ × Nat)) (startTime : Nat) : List (ℚ × Nat) :=
  l.filter (fun p => decide (startTime ≤ p.2))

/-- A sample lies strictly on the requested side of a threshold. -/
def onRequestedSide (checkBelow : Bool) (thresholdValue : ℚ) (p : ℚ × Nat) : Prop :=
  if checkBelow then p.1 < thresholdValue else thresholdValue < p.1

instance (checkBelow : Bool) (thresholdValue : ℚ) (p : ℚ × Nat) :
    Decidable (onRequestedSide checkBelow thresholdValue p) := by
  unfold onRequestedSide; infer_instance

/-- The spec-side reading of `CheckIfValueConsistently`'s contract: every
sample in the trailing window is strictly on the requested side, the window
holds at least `minDataPoints` samples, and the stored data spans at least
`durationMsec`. -/
def consistentlySpec (l : List (ℚ × Nat)) (checkBelow : Bool) (thresholdValue : ℚ)
    (durationMsec : Nat) (endTime : Nat) (minDataPoints : Nat) : Prop :=
  (∀ p ∈ windowSamples l (sub32 endTime durationMsec), onRequestedSide checkBelow thresholdValue p)
  ∧ minDataPoints ≤ (windowSamples l (sub32 endTime durationMsec)).length
  ∧ durationMsec ≤ sub32 (l.getLastD (0, 0)).2 (l.headD (0, 0)).2

instance (l : List (ℚ × Nat)) (checkBelow : Bool) (thresholdValue : ℚ)
    (durationMsec : Nat) (endTime : Nat) (minDataPoints : Nat) :
    Decidable (consistentlySpec l checkBelow thresholdValue durationMsec endTime minDataPoints) := by
  unfold consistentlySpec; infer_instance

/-- All contiguous runs of `windowSize` consecutive samples, oldest window
first — the moving-average windows of the spec's advanced-slope wording. -/
def contiguousWindows (seg : List (ℚ × Nat)) (windowSize : Nat) : List (List (ℚ × Nat)) :=
  (List.range (seg.length + 1 - windowSize)).map (fun j => (seg.drop j).take windowSize)

/-- The spec-side slope series of `GetAdvancedSlopeOverDeltaTime`: the
slope between each pair of consecutive moving averages, the time base being
the span of the newer window. -/
def specSlopes (seg : List (ℚ × Nat)) (windowSize : Nat) : List ℚ :=
  ((contiguousWindows seg windowSize).zip (contiguousWindows seg windowSize).tail).map
    (fun q => (windowAvg q.2 windowSize - windowAvg q.1 windowSize) /
      ((sub32 (q.2.getLastD (0, 0)).2 (q.2.headD (0, 0)).2 : Nat) : ℚ))

/-- The successive window contents traced by the sliding loop: the initial
window followed by each pop-front/push-back step. -/
def allWindows (window : List (ℚ × Nat)) : List (ℚ × Nat) → List (List (ℚ × Nat))
  | [] => [window]
  | jt :: rest => window :: allWindows (window.tail ++ [jt]) rest

/-- Run a sequence of `(time, value)` updates through `UpdateValue`. -/
def runUpdates (m : Monitor) : List (Nat × ℚ) → Monitor
  | [] => m
  | (t, v) :: rest => runUpdates (UpdateValue m t v).2 rest

/-- A monitor state with a given sample store and a fixed benign
configuration, used to instantiate query claims at concrete stores. -/
def monWith (l : List (ℚ × Nat)) : Monitor where
  values := l
  minTimeBetweenUpdateSampleStoringMsec := 1
  threshold := 0
  checkBelowThreshold := true
  thresholdTimePeriodMsec := 100000
  thresholdAnomalyDurationMsec := 100000
  lastThresholdAnomalyTimeMsec := 0
  thresholdAnomalies := []
  slopeLimit := 0
  useAbsoluteSlope := true
  checkBelowSlopeLim := false
  slopeTimePeriodMsec := 100000
  slopeAnomalyDurationMsec := 100000
  lastSlopeAnomalyTimeMsec := 0
  slopeAnomalies := []

/-- The Scenario C monitor: threshold 50 checked above-limit, generous
retention windows, default slope configuration. -/
def scenarioCMonitor : Monitor :=
  mkMonitor 1 50 100000 100000 false 0 0 0 false true

/-- A monitor state holding one threshold and one slope anomaly record,
both with a 5 msec anomaly duration, to exercise `CheckThreshold` and
`CheckSlope` concretely. -/
def checkMonitor : Monitor :=
  { monWith [] with
    thresholdAnomalies := [3]
    thresholdAnomalyDurationMsec := 5
    slopeAnomalies := [4]
    slopeAnomalyDurationMsec := 5 }

/-! ### Claim theorems -/

/-- Claim C10: the constructor clamps the minimum inter-sample spacing to
`max(minTimeBetweenSampleStoreMsec, 1)`, while `SetMinTimeBetweenUpdateStoreMsec`
stores the supplied value unmodified; after setting it to `0` the throttle
can never reject an update, so the spacing-based lower bound on the delta
between consecutive stored samples is gone. -/
theorem C10_min_spacing_clamp_only_in_constructor :
    (∀ (a : Nat) (t : ℚ) (b c : Nat) (d : Bool) (sl : ℚ) (e f : Nat) (g h : Bool),
      (mkMonitor a t b c d sl e f g h).minTimeBetweenUpdateSampleStoringMsec = max a 1)
    ∧ (∀ (m : Monitor) (v : Nat),
      (SetMinTimeBetweenUpdateStoreMsec m v).minTimeBetweenUpdateSampleStoringMsec = v)
    ∧ (∀ (m : Monitor) (now : Nat) (v : ℚ),
      (UpdateValue (SetMinTimeBetweenUpdateStoreMsec m 0) now v).1 = true) := by
  refine ⟨fun a t b c d sl e f g h => rfl, fun m v => rfl, fun m now v => ?_⟩
  simp [UpdateValue, SetMinTimeBetweenUpdateStoreMsec]

/-- Claim C9: `GetAverageSchemeValue` yields `false` (out-parameter and
state untouched) for every scheme other than `MEAN`, and for `MEAN` it is
exactly `GetAverageValue`. -/
theorem C9_only_mean_scheme_implemented :
    (∀ (m : Monitor) (now : Nat) (scheme : AveragingScheme) (d : Nat) (uct : Bool) (mdp : Nat),
      scheme ≠ AveragingScheme.MEAN → GetAverageSchemeValue m now scheme d uct mdp = none)
    ∧ (∀ (m : Monitor) (now : Nat) (d : Nat) (uct : Bool) (mdp : Nat),
      GetAverageSchemeValue m now AveragingScheme.MEAN d uct mdp = GetAverageValue m now d uct mdp) := by
  constructor
  · intro m now scheme d uct mdp hne
    cases scheme
    · exact absurd rfl hne
    all_goals rfl
  · intro m now d uct mdp
    rfl

/-- Witness for C9 at a concrete store and the `MEDIAN` scheme. -/
theorem C9_witness :
    GetAverageSchemeValue (monWith [(1, 0)]) 5 AveragingScheme.MEDIAN 1 true 2 = none :=
  C9_only_mean_scheme_implemented.1 (monWith [(1, 0)]) 5 AveragingScheme.MEDIAN 1 true 2
    (by decide)

/-- Claim C6: on a non-empty store, an update closer than the configured
spacing to the stored newest timestamp is rejected with the whole state
unchanged, and an update at or beyond the spacing is accepted. -/
theorem C6_throttle_rejects_without_state_change (m : Monitor) (now : Nat) (v : ℚ)
    (hne : m.values ≠ []) :
    (sub32 now (m.values.getLastD (0, 0)).2 < m.minTimeBetweenUpdateSampleStoringMsec →
      UpdateValue m now v = (false, m))
    ∧ (m.minTimeBetweenUpdateSampleStoringMsec ≤ sub32 now (m.values.getLastD (0, 0)).2 →
      (UpdateValue m now v).1 = true) := by
  constructor
  · intro h
    unfold UpdateValue
    rw [if_pos ⟨hne, h⟩]
  · intro h
    unfold UpdateValue
    rw [if_neg (fun hc => absurd hc.2 (Nat.not_lt.mpr h))]

/-- Witness for C6: Scenario D, spacing 100, samples at 0 / 50 / 150. -/
theorem C6_witness :
    UpdateValue (runUpdates (mkMonitor 100 0 100000 100000 true 0 0 0 false true) [(0, 5)]) 50 6
      = (false, runUpdates (mkMonitor 100 0 100000 100000 true 0 0 0 false true) [(0, 5)])
    ∧ (UpdateValue (runUpdates (mkMonitor 100 0 100000 100000 true 0 0 0 false true) [(0, 5)]) 150 6).1
      = true := by
  refine ⟨(C6_throttle_rejects_without_state_change _ 50 6 ?_).1 ?_,
    (C6_throttle_rejects_without_state_change _ 150 6 ?_).2 ?_⟩ <;>
  · norm_num [runUpdates, UpdateValue, updateAccept, storeSample, updateSlope, updateSlopeDen,
      divFQ, slopeAnomalyCond, thresholdViolation, Cleanup, CleanDequePairs, CleanDequeTimes,
      sub32, u32, gtFQ, absFQ, mkMonitor, MinTimeBetweenSamples]

/-- `CheckAnomalyDuration` spelled out as a proposition. -/
theorem CheckAnomalyDuration_true_iff (now : Nat) (l : List Nat) (d : Nat) :
    CheckAnomalyDuration now l d = true ↔ l ≠ [] ∧ d ≤ sub32 now (l.headD 0) := by
  simp [CheckAnomalyDuration]

/-- The status flag of `CheckThreshold` is the `CheckAnomalyDuration` test. -/
theorem CheckThreshold_fst (m : Monitor) (now : Nat) :
    (CheckThreshold m now).1
      = CheckAnomalyDuration now m.thresholdAnomalies m.thresholdAnomalyDurationMsec := by
  unfold CheckThreshold
  cases hc : CheckAnomalyDuration now m.thresholdAnomalies m.thresholdAnomalyDurationMsec
  · simp
  · simp

/-- A firing `CheckThreshold` call leaves an empty threshold record deque. -/
theorem CheckThreshold_clears (m : Monitor) (now : Nat)
    (h : (CheckThreshold m now).1 = true) :
    (CheckThreshold m now).2.thresholdAnomalies = [] := by
  unfold CheckThreshold at h ⊢
  by_cases hc : CheckAnomalyDuration now m.thresholdAnomalies m.thresholdAnomalyDurationMsec = true
  · rw [if_pos hc]
  · rw [if_neg hc] at h
    exact absurd h (by simp)

/-- The status flag of `CheckSlope` is the `CheckAnomalyDuration` test. -/
theorem CheckSlope_fst (m : Monitor) (now : Nat) :
    (CheckSlope m now).1
      = CheckAnomalyDuration now m.slopeAnomalies m.slopeAnomalyDurationMsec := by
  unfold CheckSlope
  cases hc : CheckAnomalyDuration now m.slopeAnomalies m.slopeAnomalyDurationMsec
  · simp
  · simp

/-- A firing `CheckSlope` call leaves an empty slope record deque. -/
theorem CheckSlope_clears (m : Monitor) (now : Nat)
    (h : (CheckSlope m now).1 = true) :
    (CheckSlope m now).2.slopeAnomalies = [] := by
  unfold CheckSlope at h ⊢
  by_cases hc : CheckAnomalyDuration now m.slopeAnomalies m.slopeAnomalyDurationMsec = true
  · rw [if_pos hc]
  · rw [if_neg hc] at h
    exact absurd h (by simp)

/-- Claim C7: `CheckThreshold` (resp. `CheckSlope`) fires exactly when its
anomaly deque is non-empty and the elapsed time since the oldest record
reaches the configured anomaly duration; firing clears the whole deque, so
an immediately repeated call returns false. -/
theorem C7_edge_triggered_fire_once (m : Monitor) (now : Nat) :
    ((CheckThreshold m now).1 = true ↔
      m.thresholdAnomalies ≠ [] ∧
        m.thresholdAnomalyDurationMsec ≤ sub32 now (m.thresholdAnomalies.headD 0))
    ∧ ((CheckThreshold m now).1 = true → (CheckThreshold m now).2.thresholdAnomalies = [])
    ∧ (∀ later, (CheckThreshold m now).1 = true →
        (CheckThreshold (CheckThreshold m now).2 later).1 = false)
    ∧ ((CheckSlope m now).1 = true ↔
      m.slopeAnomalies ≠ [] ∧
        m.slopeAnomalyDurationMsec ≤ sub32 now (m.slopeAnomalies.headD 0))
    ∧ ((CheckSlope m now).1 = true → (CheckSlope m now).2.slopeAnomalies = [])
    ∧ (∀ later, (CheckSlope m now).1 = true →
        (CheckSlope (CheckSlope m now).2 later).1 = false) := by
  refine ⟨?_, CheckThreshold_clears m now, ?_, ?_, CheckSlope_clears m now, ?_⟩
  · rw [CheckThreshold_fst]
    exact CheckAnomalyDuration_true_iff now m.thresholdAnomalies m.thresholdAnomalyDurationMsec
  · intro later h
    rw [CheckThreshold_fst, CheckThreshold_clears m now h]
    simp [CheckAnomalyDuration]
  · rw [CheckSlope_fst]
    exact CheckAnomalyDuration_true_iff now m.slopeAnomalies m.slopeAnomalyDurationMsec
  · intro later h
    rw [CheckSlope_fst, CheckSlope_clears m now h]
    simp [CheckAnomalyDuration]

/-- Witness for C7 on a concrete monitor: both checks fire at time 20 and
an immediate repeat reports false. -/
theorem C7_witness :
    (CheckThreshold checkMonitor 20).1 = true
    ∧ (CheckThreshold (CheckThreshold checkMonitor 20).2 20).1 = false
    ∧ (CheckSlope checkMonitor 20).1 = true
    ∧ (CheckSlope (CheckSlope checkMonitor 20).2 20).1 = false := by
  have hthr := (C7_edge_triggered_fire_once checkMonitor 20).1.mpr (by decide)
  have hslope := (C7_edge_triggered_fire_once checkMonitor 20).2.2.2.1.mpr (by decide)
  exact ⟨hthr, (C7_edge_triggered_fire_once checkMonitor 20).2.2.1 20 hthr, hslope,
    (C7_edge_triggered_fire_once checkMonitor 20).2.2.2.2.2 20 hslope⟩

/-- Claim C1 is refuted by the code: the very first accepted sample is
stored alone, `UpdateValue` line 117 then divides by
`back.timestamp - front.timestamp = 0` (the IEEE `0/0` NaN), and the
`IsSlopeAnomaly` guard `deltaTimeMsec >= 0` also admits a zero time delta
into its division. -/
theorem C1_first_sample_divides_by_zero_delta :
    (UpdateValue (mkMonitor 100 0 1000 1000 true 0 0 0 false true) 0 5).1 = true
    ∧ updateSlopeDen (storeSample (mkMonitor 100 0 1000 1000 true 0 0 0 false true).values 5 0) = 0
    ∧ updateSlope (storeSample (mkMonitor 100 0 1000 1000 true 0 0 0 false true).values 5 0)
      = FloatQ.nan
    ∧ IsSlopeAnomalyReachesDivision 0 = true := by
  refine ⟨by decide, by decide, ?_, by decide⟩
  norm_num [updateSlope, updateSlopeDen, storeSample, divFQ, sub32, u32, mkMonitor]

/-- Counterexample to claim C2 as stated: with `minDataPoints = 0`,
`useCurrentTime = true` and a window that has slid past every stored
sample, the claimed right-hand side holds (vacuously all below, `0 ≥ 0`
data points, span `100 ≥ 100`) yet the code returns `false`. -/
theorem C2_counterexample_empty_window :
    CheckIfValueConsistently (monWith [(1, 0), (2, 100)]) 300 true 10 100 true 0 = false
    ∧ consistentlySpec (monWith [(1, 0), (2, 100)]).values true 10 100
        (endTimeOf (monWith [(1, 0), (2, 100)]) 300 true) 0 := by
  exact ⟨by decide, by decide⟩

/-- Counterexample to claim C3 as stated: with `useCurrentTime = true`,
store `[(10,0), (20,100)]`, `deltaTimeMsec = 150` and clock 200, only one
sample (one distinct timestamp) lies in `[50, 200]`, yet the call succeeds
(slope `(20-20)/(200-100) = 0`). -/
theorem C3_counterexample_single_sample_success :
    GetSimpleSlopeOverDeltaTime (monWith [(10, 0), (20, 100)]) 200 150 true = some 0
    ∧ (windowSamples (monWith [(10, 0), (20, 100)]).values
        (sub32 (endTimeOf (monWith [(10, 0), (20, 100)]) 200 true) 150)).length = 1 := by
  refine ⟨?_, by decide⟩
  norm_num [GetSimpleSlopeOverDeltaTime, monWith, sub32, u32, List.find?]
  exact fun h => absurd h (by decide)

/-- Counterexample to claim C8 as stated: two samples in range form exactly
one full moving-average window of size 2 (`windowSize ≥ 2` holds), yet the
slope series is empty and the call returns `false`. -/
theorem C8_counterexample_exactly_one_window :
    GetAdvancedSlopeOverDeltaTime (monWith [(1, 0), (2, 100)]) 100 100
      SlopeCalculationType.AVERAGE 2 = none
    ∧ 2 ≤ (windowSamples (monWith [(1, 0), (2, 100)]).values (sub32 100 100)).length := by
  exact ⟨by decide, by decide⟩

/-- An accepted `UpdateValue` call ends in the `updateAccept` tail. -/
theorem UpdateValue_snd_of_accepted (m : Monitor) (now : Nat) (v : ℚ)
    (hacc : (UpdateValue m now v).1 = true) :
    (UpdateValue m now v).2 = updateAccept m now v := by
  unfold UpdateValue at hacc ⊢
  by_cases hc : m.values ≠ [] ∧
      sub32 now ((m.values.getLastD (0, 0)).2) < m.minTimeBetweenUpdateSampleStoringMsec
  · rw [if_pos hc] at hacc
    exact absurd hacc (by simp)
  · rw [if_neg hc]

/-- Claim C4: when `UpdateValue` accepts a sample, a non-violating value
leaves the threshold Anomaly Record empty, and a non-violating incremental
slope leaves the slope Anomaly Record empty — both cleared wholesale. -/
theorem C4_nonviolating_sample_clears_records (m : Monitor) (now : Nat) (v : ℚ)
    (hacc : (UpdateValue m now v).1 = true) :
    (thresholdViolation m v = false → (UpdateValue m now v).2.thresholdAnomalies = [])
    ∧ (slopeAnomalyCond m (updateSlope (storeSample m.values v now)) = false →
        (UpdateValue m now v).2.slopeAnomalies = []) := by
  rw [UpdateValue_snd_of_accepted m now v hacc]
  constructor
  · intro hthr
    simp [updateAccept, hthr, Cleanup, CleanDequeTimes]
  · intro hslope
    by_cases hthr : thresholdViolation m v = true
    · simp [updateAccept, hthr, hslope, Cleanup, CleanDequeTimes]
    · rw [Bool.not_eq_true] at hthr
      simp [updateAccept, hthr, hslope, Cleanup, CleanDequeTimes]

/-- Witness for C4: Scenario C — threshold 50 above-limit, samples 60 then
70 give two threshold records, and the non-violating 40 clears them. -/
theorem C4_witness :
    (runUpdates scenarioCMonitor [(0, 60), (10, 70)]).thresholdAnomalies.length = 2
    ∧ (UpdateValue (runUpdates scenarioCMonitor [(0, 60), (10, 70)]) 20 40).2.thresholdAnomalies
      = [] := by
  constructor
  · norm_num [runUpdates, UpdateValue, updateAccept, storeSample, updateSlope, updateSlopeDen,
      divFQ, slopeAnomalyCond, thresholdViolation, Cleanup, CleanDequePairs, CleanDequeTimes,
      sub32, u32, gtFQ, absFQ, scenarioCMonitor, mkMonitor, MinTimeBetweenSamples,
      List.dropWhile]
  · refine (C4_nonviolating_sample_clears_records _ 20 40 ?_).1 ?_ <;>
    · norm_num [runUpdates, UpdateValue, updateAccept, storeSample, updateSlope, updateSlopeDen,
        divFQ, slopeAnomalyCond, thresholdViolation, Cleanup, CleanDequePairs, CleanDequeTimes,
        sub32, u32, gtFQ, absFQ, scenarioCMonitor, mkMonitor, MinTimeBetweenSamples,
        List.dropWhile]

/-- The back of a non-empty list is a member (via `getLastD`). -/
theorem getLastD_mem_of_ne_nil {l : List (ℚ × Nat)} (hne : l ≠ []) :
    l.getLastD (0, 0) ∈ l := by
  rw [List.getLastD_eq_getLast?, List.getLast?_eq_getLast l hne]
  exact List.getLast_mem hne

/-- In a sorted store every timestamp is at most the back timestamp. -/
theorem le_snd_getLastD {l : List (ℚ × Nat)} (hs : TsSorted l) :
    ∀ p ∈ l, ∀ d, p.2 ≤ (l.getLastD d).2 := by
  induction l with
  | nil => intro p hp; cases hp
  | cons a t ih =>
    intro p hp d
    rw [List.getLastD_cons]
    rcases List.mem_cons.mp hp with rfl | hp
    · cases t with
      | nil => exact le_refl _
      | cons b t' =>
        have h1 : p.2 < b.2 := (List.pairwise_cons.mp hs).1 b (List.mem_cons_self b t')
        have h2 : b.2 ≤ ((b :: t').getLastD p).2 :=
          ih (hs.of_cons) b (List.mem_cons_self b t') p
        exact le_trans (le_of_lt h1) h2
    · exact ih hs.of_cons p hp a

/-- In a sorted store every non-back timestamp is strictly below the back
timestamp. -/
theorem lt_snd_getLastD_of_mem_dropLast {l : List (ℚ × Nat)} (hs : TsSorted l) :
    ∀ p ∈ l.dropLast, ∀ d, p.2 < (l.getLastD d).2 := by
  induction l with
  | nil => intro p hp; cases hp
  | cons a t ih =>
    intro p hp d
    cases t with
    | nil => cases hp
    | cons b t' =>
      rw [List.getLastD_cons]
      rw [List.dropLast_cons₂] at hp
      rcases List.mem_cons.mp hp with rfl | hp
      · have h1 : p.2 < b.2 := (List.pairwise_cons.mp hs).1 b (List.mem_cons_self b t')
        have h2 : b.2 ≤ ((b :: t').getLastD p).2 :=
          le_snd_getLastD hs.of_cons b (List.mem_cons_self b t') p
        exact lt_of_lt_of_le h1 h2
      · exact ih hs.of_cons p hp a

/-- The insertion block preserves sortedness and the timestamp bound when
every stored timestamp is at most the clock reading. -/
theorem storeSample_sorted (l : List (ℚ × Nat)) (v : ℚ) (now : Nat)
    (hs : TsSorted l) (hb : ∀ p ∈ l, p.2 ≤ now) :
    TsSorted (storeSample l v now) ∧ ∀ p ∈ storeSample l v now, p.2 ≤ now := by
  unfold storeSample
  by_cases hc : l ≠ [] ∧ (l.getLastD (0, 0)).2 = now
  · rw [if_pos hc]
    constructor
    · rw [TsSorted, List.pairwise_append]
      refine ⟨hs.sublist (List.dropLast_sublist l), List.pairwise_singleton _ _, ?_⟩
      intro p hp q hq
      rw [List.mem_singleton] at hq
      subst hq
      have := lt_snd_getLastD_of_mem_dropLast hs p hp (0, 0)
      rw [hc.2] at this
      exact this
    · intro p hp
      rcases List.mem_append.mp hp with h | h
      · exact hb p ((List.dropLast_sublist l).subset h)
      · rw [List.mem_singleton] at h
        subst h
        exact le_refl _
  · rw [if_neg hc]
    constructor
    · rw [TsSorted, List.pairwise_append]
      refine ⟨hs, List.pairwise_singleton _ _, ?_⟩
      intro p hp q hq
      rw [List.mem_singleton] at hq
      subst hq
      have hne : l ≠ [] := List.ne_nil_of_mem hp
      have h1 : p.2 ≤ (l.getLastD (0, 0)).2 := le_snd_getLastD hs p hp (0, 0)
      have h2 : (l.getLastD (0, 0)).2 ≤ now := hb _ (getLastD_mem_of_ne_nil hne)
      have h3 : (l.getLastD (0, 0)).2 ≠ now := fun h => hc ⟨hne, h⟩
      exact lt_of_le_of_lt h1 (lt_of_le_of_ne h2 h3)
    · intro p hp
      rcases List.mem_append.mp hp with h | h
      · exact hb p h
      · rw [List.mem_singleton] at h
        subst h
        exact le_refl _

/-- The stored deque after any `UpdateValue` call is the cleaned insertion
result or the unchanged deque; in both cases sortedness and the timestamp
bound are preserved. -/
theorem updateValue_invariant (m : Monitor) (now : Nat) (v : ℚ)
    (hs : TsSorted m.values) (hb : ∀ p ∈ m.values, p.2 ≤ now) :
    TsSorted (UpdateValue m now v).2.values ∧
      ∀ p ∈ (UpdateValue m now v).2.values, p.2 ≤ now := by
  unfold UpdateValue
  by_cases hc : m.values ≠ [] ∧
      sub32 now ((m.values.getLastD (0, 0)).2) < m.minTimeBetweenUpdateSampleStoringMsec
  · rw [if_pos hc]
    exact ⟨hs, hb⟩
  · rw [if_neg hc]
    have hstore := storeSample_sorted m.values v now hs hb
    have hval : (updateAccept m now v).values
        = CleanDequePairs (storeSample m.values v now) now
            (max m.slopeTimePeriodMsec m.thresholdTimePeriodMsec) := by
      by_cases h1 : slopeAnomalyCond m (updateSlope (storeSample m.values v now)) = true
      · by_cases h2 : thresholdViolation m v = true
        · simp [updateAccept, h1, h2, Cleanup]
        · rw [Bool.not_eq_true] at h2
          simp [updateAccept, h1, h2, Cleanup]
      · rw [Bool.not_eq_true] at h1
        by_cases h2 : thresholdViolation m v = true
        · simp [updateAccept, h1, h2, Cleanup]
        · rw [Bool.not_eq_true] at h2
          simp [updateAccept, h1, h2, Cleanup]
    show TsSorted (updateAccept m now v).values ∧ _
    rw [hval]
    refine ⟨hstore.1.sublist (List.dropWhile_sublist _), ?_⟩
    intro p hp
    exact hstore.2 p ((List.dropWhile_sublist _).subset hp)

/-- Running monotonically-clocked updates from a sorted state keeps the
store sorted. -/
theorem runUpdates_sorted (inputs : List (Nat × ℚ)) :
    ∀ (m : Monitor), TsSorted m.values →
      List.Pairwise (fun a b => a.1 ≤ b.1) inputs →
      (∀ p ∈ m.values, ∀ i ∈ inputs, p.2 ≤ i.1) →
      TsSorted (runUpdates m inputs).values := by
  induction inputs with
  | nil => intro m hs _ _; exact hs
  | cons iv rest ih =>
    intro m hs hmono hb
    obtain ⟨t, v⟩ := iv
    show TsSorted (runUpdates (UpdateValue m t v).2 rest).values
    have hstep := updateValue_invariant m t v hs
      (fun p hp => hb p hp (t, v) (List.mem_cons_self _ _))
    refine ih (UpdateValue m t v).2 hstep.1 hmono.of_cons ?_
    intro p hp i hi
    exact le_trans (hstep.2 p hp) ((List.pairwise_cons.mp hmono).1 i hi)

/-- Claim C5: across any monotonically-clocked `UpdateValue` sequence the
stored timestamps are strictly increasing (hence non-decreasing with no
duplicate timestamps), and an update carrying the newest stored timestamp
overwrites the back entry's value instead of appending. -/
theorem C5_timestamps_strictly_increasing_and_tie_overwrites :
    (∀ (inputs : List (Nat × ℚ)) (m : Monitor), TsSorted m.values →
      List.Pairwise (fun a b => a.1 ≤ b.1) inputs →
      (∀ p ∈ m.values, ∀ i ∈ inputs, p.2 ≤ i.1) →
      TsSorted (runUpdates m inputs).values)
    ∧ (∀ (l : List (ℚ × Nat)) (v : ℚ) (now : Nat), l ≠ [] → (l.getLastD (0, 0)).2 = now →
      storeSample l v now = l.dropLast ++ [(v, now)]
      ∧ (storeSample l v now).length = l.length
      ∧ (storeSample l v now).getLastD (0, 0) = (v, now)) := by
  refine ⟨runUpdates_sorted, ?_⟩
  intro l v now hne hback
  have heq : storeSample l v now = l.dropLast ++ [(v, now)] := by
    unfold storeSample
    rw [if_pos ⟨hne, hback⟩]
  refine ⟨heq, ?_, ?_⟩
  · rw [heq, List.length_append, List.length_dropLast]
    have := List.length_pos.mpr hne
    simp
    omega
  · rw [heq, List.getLastD_eq_getLast?, List.getLast?_concat]
    rfl

/-- Witness for C5: the Scenario C run yields a strictly sorted store, and
a same-millisecond insertion on `[(1,0), (2,100)]` overwrites the back. -/
theorem C5_witness :
    TsSorted (runUpdates scenarioCMonitor [(0, 60), (10, 70), (20, 40)]).values
    ∧ storeSample [(1, 0), (2, 100)] 7 100 = [(1, 0), (7, 100)] := by
  constructor
  · exact C5_timestamps_strictly_increasing_and_tie_overwrites.1
      [(0, 60), (10, 70), (20, 40)] scenarioCMonitor (by decide) (by decide) (by decide)
  · rw [(C5_timestamps_strictly_increasing_and_tie_overwrites.2 [(1, 0), (2, 100)] 7 100
      (by decide) (by decide)).1]
    decide

/-- The directional test failing inside the backward scan is exactly the
negation of `onRequestedSide`. -/
theorem scanBad_iff (cb : Bool) (thr v : ℚ) (ts : Nat) :
    ((if cb then decide (thr ≤ v) else decide (v ≤ thr)) = true)
      ↔ ¬ onRequestedSide cb thr (v, ts) := by
  cases cb <;> simp [onRequestedSide, not_lt]

/-- On a newest-first (descending-timestamp) list, the backward scan of
`CheckIfValueConsistently` returns `none` exactly when some sample in the
span fails the directional test, and otherwise counts the in-span samples. -/
theorem consistScan_eq (cb : Bool) (thr : ℚ) (st : Nat) (r : List (ℚ × Nat))
    (hdesc : List.Pairwise (fun a b => b.2 ≤ a.2) r) :
    consistScan cb thr st r =
      if ∃ p ∈ r, st ≤ p.2 ∧ ¬ onRequestedSide cb thr p then none
      else some ((r.filter (fun p => decide (st ≤ p.2))).length) := by
  induction r with
  | nil => simp [consistScan]
  | cons a rest ih =>
    obtain ⟨v, ts⟩ := a
    show consistScan cb thr st ((v, ts) :: rest) = _
    unfold consistScan
    by_cases h1 : ts < st
    · rw [if_pos h1]
      have hnone : ¬ ∃ p ∈ (v, ts) :: rest, st ≤ p.2 ∧ ¬ onRequestedSide cb thr p := by
        rintro ⟨p, hp, hst, -⟩
        rcases List.mem_cons.mp hp with rfl | hp
        · omega
        · have : p.2 ≤ ts := (List.pairwise_cons.mp hdesc).1 p hp
          omega
      rw [if_neg hnone]
      have hfil : ((v, ts) :: rest).filter (fun p => decide (st ≤ p.2)) = [] := by
        rw [List.filter_eq_nil_iff]
        intro p hp
        rcases List.mem_cons.mp hp with rfl | hp
        · simpa using h1
        · have : p.2 ≤ ts := (List.pairwise_cons.mp hdesc).1 p hp
          simp
          omega
      rw [hfil]
      rfl
    · rw [if_neg h1]
      have hst : st ≤ ts := Nat.le_of_not_lt h1
      by_cases h2 : (if cb then decide (thr ≤ v) else decide (v ≤ thr)) = true
      · rw [if_pos h2]
        have hex : ∃ p ∈ (v, ts) :: rest, st ≤ p.2 ∧ ¬ onRequestedSide cb thr p :=
          ⟨(v, ts), List.mem_cons_self _ _, hst, (scanBad_iff cb thr v ts).mp h2⟩
        rw [if_pos hex]
      · rw [if_neg h2]
        rw [ih hdesc.of_cons]
        have hgood : onRequestedSide cb thr (v, ts) :=
          not_not.mp (fun hb => h2 ((scanBad_iff cb thr v ts).mpr hb))
        by_cases h3 : ∃ p ∈ rest, st ≤ p.2 ∧ ¬ onRequestedSide cb thr p
        · rw [if_pos h3]
          obtain ⟨p, hp, hw⟩ := h3
          rw [if_pos ⟨p, List.mem_cons_of_mem _ hp, hw⟩]
        · rw [if_neg h3]
          have hnone : ¬ ∃ p ∈ (v, ts) :: rest, st ≤ p.2 ∧ ¬ onRequestedSide cb thr p := by
            rintro ⟨p, hp, hst', hbad⟩
            rcases List.mem_cons.mp hp with rfl | hp
            · exact hbad hgood
            · exact h3 ⟨p, hp, hst', hbad⟩
          rw [if_neg hnone]
          have : ((v, ts) :: rest).filter (fun p => decide (st ≤ p.2))
              = (v, ts) :: rest.filter (fun p => decide (st ≤ p.2)) := by
            rw [List.filter_cons]
            simp [hst]
          rw [this]
          rfl

/-- Claim C2, amended: on a non-empty sorted store (window end at or after
the newest sample), `CheckIfValueConsistently` returns true iff every
window sample is strictly on the requested side, the window holds at least
`minDataPoints` samples, the data spans the duration, AND the window holds
at least one sample. -/
theorem C2_consistently_iff (m : Monitor) (now : Nat) (checkBelow : Bool) (thr : ℚ)
    (duration : Nat) (uct : Bool) (minPts : Nat)
    (hne : m.values ≠ []) (hs : TsSorted m.values)
    (hback : (m.values.getLastD (0, 0)).2 ≤ endTimeOf m now uct) :
    CheckIfValueConsistently m now checkBelow thr duration uct minPts = true ↔
      consistentlySpec m.values checkBelow thr duration (endTimeOf m now uct) minPts ∧
      windowSamples m.values (sub32 (endTimeOf m now uct) duration) ≠ [] := by
  unfold CheckIfValueConsistently consistentlySpec windowSamples endTimeOf
  rw [if_neg hne]
  by_cases hspan : sub32 (m.values.getLastD (0, 0)).2 (m.values.headD (0, 0)).2 < duration
  · rw [if_pos hspan]
    simp only [Bool.false_eq_true, false_iff]
    rintro ⟨⟨-, -, hdur⟩, -⟩
    omega
  · rw [if_neg hspan]
    have hdesc : List.Pairwise (fun a b : ℚ × Nat => b.2 ≤ a.2) m.values.reverse := by
      rw [List.pairwise_reverse]
      exact hs.imp le_of_lt
    rw [consistScan_eq checkBelow thr _ _ hdesc]
    by_cases hbad : ∃ p ∈ m.values,
        sub32 (if uct then now else (m.values.getLastD (0, 0)).2) duration ≤ p.2 ∧
          ¬ onRequestedSide checkBelow thr p
    · have hbad' : ∃ p ∈ m.values.reverse,
          sub32 (if uct then now else (m.values.getLastD (0, 0)).2) duration ≤ p.2 ∧
            ¬ onRequestedSide checkBelow thr p := by
        obtain ⟨p, hp, hw⟩ := hbad
        exact ⟨p, List.mem_reverse.mpr hp, hw⟩
      rw [if_pos hbad']
      simp only [Bool.false_eq_true, false_iff]
      rintro ⟨⟨hall, -, -⟩, -⟩
      obtain ⟨p, hp, hst, hbp⟩ := hbad
      exact hbp (hall p (List.mem_filter.mpr ⟨hp, by simpa using hst⟩))
    · have hbad' : ¬ ∃ p ∈ m.values.reverse,
          sub32 (if uct then now else (m.values.getLastD (0, 0)).2) duration ≤ p.2 ∧
            ¬ onRequestedSide checkBelow thr p := by
        rintro ⟨p, hp, hw⟩
        exact hbad ⟨p, List.mem_reverse.mp hp, hw⟩
      rw [if_neg hbad']
      rw [List.filter_reverse, List.length_reverse]
      show (decide _ && decide _) = true ↔ _
      rw [Bool.and_eq_true, decide_eq_true_iff, decide_eq_true_iff]
      constructor
      · rintro ⟨hmin, hpos⟩
        refine ⟨⟨?_, hmin, Nat.le_of_not_lt hspan⟩, ?_⟩
        · intro p hp
          rcases List.mem_filter.mp hp with ⟨hpl, hpw⟩
          by_contra hbp
          exact hbad ⟨p, hpl, by simpa using hpw, hbp⟩
        · intro hnil
          rw [hnil] at hpos
          exact absurd hpos (by simp)
      · rintro ⟨⟨-, hmin, -⟩, hnil⟩
        exact ⟨hmin, List.length_pos.mpr hnil⟩

/-- Witness for C2: Scenario E — span 400 is below the requested 500, so
the call reports false even though every value is below the threshold. -/
theorem C2_witness :
    CheckIfValueConsistently (monWith [(90, 0), (95, 200), (80, 400)]) 400 true 100 500 false 3
      = false := by
  have h := C2_consistently_iff (monWith [(90, 0), (95, 200), (80, 400)]) 400 true 100 500 false 3
    (by decide) (by decide) (by decide)
  rw [Bool.eq_false_iff]
  intro htrue
  exact absurd (h.mp htrue) (by decide)

/-- `find?` is the head of `filter`. -/
theorem find?_eq_head?_filter (p : (ℚ × Nat) → Bool) (l : List (ℚ × Nat)) :
    l.find? p = (l.filter p).head? := by
  induction l with
  | nil => rfl
  | cons a t ih =>
    by_cases h : p a = true
    · rw [List.find?_cons_of_pos _ h, List.filter_cons_of_pos h]
      rfl
    · rw [List.find?_cons_of_neg _ h, List.filter_cons_of_neg h]
      exact ih

/-- A non-empty trailing window of a sorted store contains the store's
back entry. -/
theorem back_mem_windowSamples {l : List (ℚ × Nat)} {st : Nat} (hs : TsSorted l)
    (hne : l ≠ []) (hw : windowSamples l st ≠ []) :
    l.getLastD (0, 0) ∈ windowSamples l st := by
  obtain ⟨q, hq⟩ := List.exists_mem_of_ne_nil _ hw
  rcases List.mem_filter.mp hq with ⟨hql, hqw⟩
  have h1 : st ≤ q.2 := by simpa using hqw
  have h2 : q.2 ≤ (l.getLastD (0, 0)).2 := le_snd_getLastD hs q hql (0, 0)
  refine List.mem_filter.mpr ⟨getLastD_mem_of_ne_nil hne, ?_⟩
  rw [decide_eq_true_iff]
  omega

/-- If the trailing window of a sorted store holds a single sample, that
sample is the store's back entry. -/
theorem windowSamples_singleton_eq_back {l : List (ℚ × Nat)} {st : Nat} {q : ℚ × Nat}
    (hs : TsSorted l) (hne : l ≠ []) (hfil : windowSamples l st = [q]) :
    q = l.getLastD (0, 0) := by
  have := back_mem_windowSamples hs hne (by rw [hfil]; exact List.cons_ne_nil q [])
  rw [hfil, List.mem_singleton] at this
  exact this.symm

/-- If the trailing window of a sorted store holds at least two samples,
its head timestamp differs from the back timestamp. -/
theorem windowSamples_head_ne_back {l : List (ℚ × Nat)} {st : Nat} {q r : ℚ × Nat}
    {t : List (ℚ × Nat)} (hs : TsSorted l) (hfil : windowSamples l st = q :: r :: t) :
    q.2 ≠ (l.getLastD (0, 0)).2 := by
  have hsorted : TsSorted (windowSamples l st) := hs.sublist (List.filter_sublist l)
  rw [hfil] at hsorted
  have hqr : q.2 < r.2 := (List.pairwise_cons.mp hsorted).1 r (List.mem_cons_self r t)
  have hr : r ∈ windowSamples l st := by
    rw [hfil]
    exact List.mem_cons_of_mem q (List.mem_cons_self r t)
  have hrl : r ∈ l := List.mem_of_mem_filter hr
  have hrb : r.2 ≤ (l.getLastD (0, 0)).2 := le_snd_getLastD hs r hrl (0, 0)
  omega

/-- Claim C3, amended: on an empty store the simple slope reports false;
on a sorted non-empty store with `useCurrentTime = false` it succeeds
exactly when at least two samples lie in the trailing window, and then its
value is the two-point slope between the oldest in-window sample and the
newest sample. -/
theorem C3_simple_slope_characterization :
    (∀ (m : Monitor) (now delta : Nat) (uct : Bool), m.values = [] →
      GetSimpleSlopeOverDeltaTime m now delta uct = none)
    ∧ (∀ (m : Monitor) (now delta : Nat), m.values ≠ [] → TsSorted m.values →
      ((GetSimpleSlopeOverDeltaTime m now delta false).isSome ↔
        2 ≤ (windowSamples m.values (sub32 (m.values.getLastD (0, 0)).2 delta)).length)
      ∧ (∀ q, (windowSamples m.values (sub32 (m.values.getLastD (0, 0)).2 delta)).head? = some q →
          2 ≤ (windowSamples m.values (sub32 (m.values.getLastD (0, 0)).2 delta)).length →
          GetSimpleSlopeOverDeltaTime m now delta false =
            some (((m.values.getLastD (0, 0)).1 - q.1) /
              ((sub32 (m.values.getLastD (0, 0)).2 q.2 : Nat) : ℚ)))) := by
  constructor
  · intro m now delta uct hnil
    unfold GetSimpleSlopeOverDeltaTime
    rw [if_pos hnil]
  · intro m now delta hne hs
    unfold GetSimpleSlopeOverDeltaTime
    rw [if_neg hne]
    simp only [Bool.false_eq_true, if_false]
    rw [find?_eq_head?_filter]
    have hwin : windowSamples m.values (sub32 (m.values.getLastD (0, 0)).2 delta)
        = m.values.filter (fun p => decide (sub32 (m.values.getLastD (0, 0)).2 delta ≤ p.2)) := rfl
    rw [hwin]
    cases hfil : m.values.filter
        (fun p => decide (sub32 (m.values.getLastD (0, 0)).2 delta ≤ p.2)) with
    | nil =>
      simp
    | cons q rest =>
      cases rest with
      | nil =>
        have hq : q = m.values.getLastD (0, 0) :=
          windowSamples_singleton_eq_back hs hne (by rw [hwin, hfil])
        constructor
        · rw [List.head?_cons]
          show (if q.2 = (m.values.getLastD (0, 0)).2 then none else some _).isSome ↔ _
          rw [hq, if_pos rfl]
          simp
        · intro q' hq' hlen
          rw [List.length_singleton] at hlen
          omega
      | cons r t =>
        have hne2 : q.2 ≠ (m.values.getLastD (0, 0)).2 :=
          windowSamples_head_ne_back hs (by rw [hwin, hfil])
        constructor
        · rw [List.head?_cons]
          show (if q.2 = (m.values.getLastD (0, 0)).2 then none else some _).isSome ↔ _
          rw [if_neg hne2]
          simp [Nat.le_add_left]
        · intro q' hq' hlen
          rw [List.head?_cons] at hq'
          injection hq' with hq'
          subst hq'
          rw [List.head?_cons]
          show (if q.2 = (m.values.getLastD (0, 0)).2 then none else some _) = some _
          rw [if_neg hne2]

/-- Witness for C3: Scenario B — samples (10, t=0), (20, t=100), window 100
ending at the newest sample: slope 1/10. -/
theorem C3_witness :
    GetSimpleSlopeOverDeltaTime (monWith [(10, 0), (20, 100)]) 100 100 false = some (1 / 10) := by
  have h := (C3_simple_slope_characterization.2 (monWith [(10, 0), (20, 100)]) 100 100
    (by decide) (by decide)).2 (10, 0) (by decide) (by decide)
  rw [h]
  norm_num [monWith, sub32, u32]

/-- The sliding loop yields one slope per consumed sample. -/
theorem slideLoop_length (W : Nat) (rest : List (ℚ × Nat)) :
    ∀ (w : List (ℚ × Nat)) (prev : ℚ), (slideLoop W w rest prev).length = rest.length := by
  induction rest with
  | nil => intro w prev; rfl
  | cons jt rest' ih =>
    intro w prev
    show (_ :: slideLoop W (w.tail ++ [jt]) rest' _).length = rest'.length + 1
    rw [List.length_cons, ih]

/-- `allWindows` always starts with the initial window. -/
theorem allWindows_eq_cons (w : List (ℚ × Nat)) (rest : List (ℚ × Nat)) :
    ∃ tl, allWindows w rest = w :: tl := by
  cases rest with
  | nil => exact ⟨[], rfl⟩
  | cons jt rest' => exact ⟨allWindows (w.tail ++ [jt]) rest', rfl⟩

/-- The sliding loop is the slope series over consecutive window contents. -/
theorem slideLoop_eq_zip (W : Nat) (rest : List (ℚ × Nat)) :
    ∀ w : List (ℚ × Nat),
      slideLoop W w rest (windowAvg w W) =
        ((allWindows w rest).zip (allWindows w rest).tail).map
          (fun q => (windowAvg q.2 W - windowAvg q.1 W) /
            ((sub32 (q.2.getLastD (0, 0)).2 (q.2.headD (0, 0)).2 : Nat) : ℚ)) := by
  induction rest with
  | nil => intro w; rfl
  | cons jt rest' ih =>
    intro w
    obtain ⟨tl, htl⟩ := allWindows_eq_cons (w.tail ++ [jt]) rest'
    show (windowAvg (w.tail ++ [jt]) W - windowAvg w W) /
          ((sub32 ((w.tail ++ [jt]).getLastD (0, 0)).2 ((w.tail ++ [jt]).headD (0, 0)).2 : Nat) : ℚ)
        :: slideLoop W (w.tail ++ [jt]) rest' (windowAvg (w.tail ++ [jt]) W) = _
    rw [show allWindows w (jt :: rest') = w :: allWindows (w.tail ++ [jt]) rest' from rfl]
    rw [htl, List.tail_cons, List.zip_cons_cons, List.map_cons]
    congr 1
    rw [ih (w.tail ++ [jt]), htl, List.tail_cons]

/-- The window contents traced from the first full window are exactly the
contiguous `windowSize`-runs of the segment. -/
theorem allWindows_take_drop (W : Nat) :
    ∀ seg : List (ℚ × Nat), 1 ≤ W → W ≤ seg.length →
      allWindows (seg.take W) (seg.drop W) = contiguousWindows seg W := by
  intro seg
  induction seg generalizing W with
  | nil =>
    intro h1 h2
    simp at h2
    omega
  | cons x xs ih =>
    intro h1 h2
    by_cases hlen : W = xs.length + 1
    · have htake : (x :: xs).take W = x :: xs := List.take_of_length_le (by simp [hlen])
      have hdrop : (x :: xs).drop W = [] := List.drop_eq_nil_of_le (by simp [hlen])
      rw [htake, hdrop]
      show [x :: xs] = contiguousWindows (x :: xs) W
      unfold contiguousWindows
      rw [show (x :: xs).length + 1 - W = 1 from by simp [hlen]]
      rw [show List.range 1 = [0] from by decide]
      rw [List.map_singleton, List.drop_zero, htake]
    · have hx : W ≤ xs.length := by
        simp at h2
        omega
      obtain ⟨V, rfl⟩ : ∃ V, W = V + 1 := ⟨W - 1, by omega⟩
      have hVlt : V < xs.length := by omega
      rw [List.take_succ_cons, List.drop_succ_cons]
      rw [List.drop_eq_getElem_cons hVlt]
      show (x :: xs.take V)
          :: allWindows ((x :: xs.take V).tail ++ [xs[V]]) (xs.drop (V + 1))
          = contiguousWindows (x :: xs) (V + 1)
      have hshift : (x :: xs.take V).tail ++ [xs[V]] = xs.take (V + 1) := by
        rw [List.tail_cons, List.take_succ, List.getElem?_eq_getElem hVlt]
        rfl
      rw [hshift, ih (V + 1) h1 hx]
      unfold contiguousWindows
      rw [show (x :: xs).length + 1 - (V + 1) = (xs.length + 1 - (V + 1)) + 1 from by
        simp
        omega]
      rw [List.range_succ_eq_map, List.map_cons, List.map_map]
      congr 1

/-- The backward walk passes over a block of samples newer than the cutoff. -/
theorem backWalk_append (st : Nat) (xs ys : List (ℚ × Nat))
    (hall : ∀ p ∈ xs, ¬ p.2 ≤ st) :
    backWalk st (xs ++ ys) = xs ++ backWalk st ys := by
  induction xs with
  | nil => rfl
  | cons a t ih =>
    rw [List.cons_append]
    show (if a.2 ≤ st then [a] else a :: backWalk st (t ++ ys)) = (a :: t) ++ backWalk st ys
    rw [if_neg (hall a (List.mem_cons_self a t)),
      ih (fun p hp => hall p (List.mem_cons_of_mem a hp))]
    rfl

/-- The backward walk keeps a list all of whose samples are newer than the
cutoff. -/
theorem backWalk_all_gt (st : Nat) (r : List (ℚ × Nat))
    (hall : ∀ p ∈ r, ¬ p.2 ≤ st) :
    backWalk st r = r := by
  induction r with
  | nil => rfl
  | cons a t ih =>
    show (if a.2 ≤ st then [a] else a :: backWalk st t) = a :: t
    rw [if_neg (hall a (List.mem_cons_self a t)),
      ih (fun p hp => hall p (List.mem_cons_of_mem a hp))]

/-- The backward walk stops at a sample at or before the cutoff. -/
theorem backWalk_cons_of_le (st : Nat) (a : ℚ × Nat) (t : List (ℚ × Nat)) (h : a.2 ≤ st) :
    backWalk st (a :: t) = [a] := by
  show (if a.2 ≤ st then [a] else _) = [a]
  rw [if_pos h]

/-- Every sample behind the dropWhile cut of a sorted store is strictly
newer than the cutoff. -/
theorem dropWhile_all_gt {l : List (ℚ × Nat)} {st : Nat} (hs : TsSorted l) :
    ∀ p ∈ l.dropWhile (fun p => decide (p.2 ≤ st)), ¬ p.2 ≤ st := by
  induction l with
  | nil => intro p hp; cases hp
  | cons x xs ih =>
    intro p hp
    rw [List.dropWhile_cons] at hp
    by_cases hP : decide (x.2 ≤ st) = true
    · rw [if_pos hP] at hp
      exact ih hs.of_cons p hp
    · rw [if_neg hP] at hp
      have hx : ¬ x.2 ≤ st := by simpa using hP
      rcases List.mem_cons.mp hp with rfl | hp
      · exact hx
      · have : x.2 < p.2 := (List.pairwise_cons.mp hs).1 p hp
        omega

/-- The iterator segment of `GetAdvancedSlopeOverDeltaTime` on a sorted
store: the whole store when no sample is at or before the cutoff, else the
newest such sample followed by all newer samples. -/
theorem advSeg_structure (st : Nat) (l : List (ℚ × Nat)) (hs : TsSorted l) :
    (l.takeWhile (fun p => decide (p.2 ≤ st)) = [] ∧ advSeg st l = l)
    ∨ (∃ a A', l.takeWhile (fun p => decide (p.2 ≤ st)) = A' ++ [a] ∧
        advSeg st l = a :: l.dropWhile (fun p => decide (p.2 ≤ st))) := by
  have hAB : l.takeWhile (fun p => decide (p.2 ≤ st))
      ++ l.dropWhile (fun p => decide (p.2 ≤ st)) = l :=
    List.takeWhile_append_dropWhile _ _
  rcases List.eq_nil_or_concat (l.takeWhile (fun p => decide (p.2 ≤ st))) with hA | ⟨A', a, hA⟩
  · left
    refine ⟨hA, ?_⟩
    have hl : l.dropWhile (fun p => decide (p.2 ≤ st)) = l := by
      conv_rhs => rw [← hAB]
      rw [hA, List.nil_append]
    unfold advSeg
    rw [backWalk_all_gt st l.reverse (fun p hp => by
      have : p ∈ l.dropWhile (fun q => decide (q.2 ≤ st)) := by
        rw [hl]
        exact List.mem_reverse.mp hp
      exact dropWhile_all_gt hs p this)]
    exact List.reverse_reverse l
  · rw [List.concat_eq_append] at hA
    right
    refine ⟨a, A', hA, ?_⟩
    have hl : l = (A' ++ [a]) ++ l.dropWhile (fun p => decide (p.2 ≤ st)) := by
      conv_lhs => rw [← hAB]
      rw [hA]
    have ha : a.2 ≤ st := by
      have : a ∈ l.takeWhile (fun p => decide (p.2 ≤ st)) := by
        rw [hA]
        exact List.mem_append_right A' (List.mem_singleton.mpr rfl)
      simpa using List.mem_takeWhile_imp this
    unfold advSeg
    conv_lhs => rw [hl]
    rw [List.reverse_append, List.reverse_append, List.reverse_singleton]
    rw [show ([a] ++ A'.reverse : List (ℚ × Nat)) = a :: A'.reverse from rfl]
    rw [backWalk_append st _ _ (fun p hp =>
      dropWhile_all_gt hs p (List.mem_reverse.mp hp))]
    rw [backWalk_cons_of_le st a A'.reverse ha]
    rw [List.reverse_append, List.reverse_reverse, List.reverse_singleton]
    rfl

/-- `CalculateSlopeFromType` fails exactly on an empty slope series. -/
theorem CalculateSlopeFromType_eq_none_iff (s : List ℚ) (ct : SlopeCalculationType) :
    CalculateSlopeFromType s ct = none ↔ s = [] := by
  cases s with
  | nil => simp [CalculateSlopeFromType]
  | cons a t => simp [CalculateSlopeFromType]

/-- Claim C8, amended: on a sorted store, `GetAdvancedSlopeOverDeltaTime`
fails exactly when `windowSize < 2`, or no stored sample lies at or before
`now - deltaTimeMsec`, or the segment starting at the newest such sample
holds fewer than `windowSize + 1` samples (one full window is not enough:
at least two are needed to produce a slope); on success the result is the
`calcType` reduction of the slope series of consecutive moving averages
over that segment. -/
theorem C8_advanced_slope_characterization (m : Monitor) (now delta : Nat)
    (ct : SlopeCalculationType) (W : Nat) (hs : TsSorted m.values) :
    (GetAdvancedSlopeOverDeltaTime m now delta ct W = none ↔
      W < 2 ∨ (∀ p ∈ m.values, sub32 now delta < p.2) ∨
        (advSeg (sub32 now delta) m.values).length < W + 1)
    ∧ (∀ r, GetAdvancedSlopeOverDeltaTime m now delta ct W = some r →
        CalculateSlopeFromType (specSlopes (advSeg (sub32 now delta) m.values) W) ct = some r) := by
  unfold GetAdvancedSlopeOverDeltaTime
  by_cases hpre : m.values = [] ∨ W < 2
  · rw [if_pos hpre]
    have hRHS : W < 2 ∨ (∀ p ∈ m.values, sub32 now delta < p.2) ∨
        (advSeg (sub32 now delta) m.values).length < W + 1 := by
      rcases hpre with hnil | hW
      · exact Or.inr (Or.inl (by rw [hnil]; intro p hp; cases hp))
      · exact Or.inl hW
    exact ⟨iff_of_true rfl hRHS, fun r hr => absurd hr (by simp)⟩
  · rw [if_neg hpre]
    push_neg at hpre
    obtain ⟨hnil, hW⟩ := hpre
    rcases advSeg_structure (sub32 now delta) m.values hs with ⟨hA, hsegl⟩ | ⟨a, A', hA, hsegl⟩
    · -- no sample at or before the cutoff: the guard fires
      obtain ⟨x, xs, hl⟩ := List.exists_cons_of_ne_nil hnil
      have hx : sub32 now delta < x.2 := by
        rw [hl, List.takeWhile_cons] at hA
        by_cases hxd : decide (x.2 ≤ sub32 now delta) = true
        · rw [if_pos hxd] at hA
          exact absurd hA (List.cons_ne_nil _ _)
        · have : ¬ x.2 ≤ sub32 now delta := by simpa using hxd
          omega
      have hall : ∀ p ∈ m.values, sub32 now delta < p.2 := by
        intro p hp
        rw [hl] at hp
        rcases List.mem_cons.mp hp with rfl | hp
        · exact hx
        · have hs' := hs
          rw [hl] at hs'
          have : x.2 < p.2 := (List.pairwise_cons.mp hs').1 p hp
          omega
      have hhead : sub32 now delta < ((advSeg (sub32 now delta) m.values).headD (0, 0)).2 := by
        rw [hsegl, hl]
        exact hx
      rw [if_pos (Or.inl ⟨by rw [hsegl], hhead⟩)]
      exact ⟨iff_of_true rfl (Or.inr (Or.inl hall)), fun r hr => absurd hr (by simp)⟩
    · -- the anchor sample a exists
      have hamem' : a ∈ m.values.takeWhile (fun p => decide (p.2 ≤ sub32 now delta)) := by
        rw [hA]
        exact List.mem_append_right A' (List.mem_singleton.mpr rfl)
      have hamem : a ∈ m.values := (List.takeWhile_sublist _).subset hamem'
      have ha : a.2 ≤ sub32 now delta := by simpa using List.mem_takeWhile_imp hamem'
      have hnotall : ¬ ∀ p ∈ m.values, sub32 now delta < p.2 := by
        intro hall
        exact absurd (hall a hamem) (by omega)
      by_cases hlen : (advSeg (sub32 now delta) m.values).length < W
      · rw [if_pos (Or.inr hlen)]
        exact ⟨iff_of_true rfl (Or.inr (Or.inr (by omega))),
          fun r hr => absurd hr (by simp)⟩
      · have hguard : ¬ (((advSeg (sub32 now delta) m.values).length = m.values.length ∧
            sub32 now delta < ((advSeg (sub32 now delta) m.values).headD (0, 0)).2) ∨
            (advSeg (sub32 now delta) m.values).length < W) := by
          rintro (⟨-, hlt⟩ | hlen')
          · rw [hsegl] at hlt
            have hhd : ((a :: m.values.dropWhile
                (fun p => decide (p.2 ≤ sub32 now delta))).headD (0, 0)) = a := rfl
            rw [hhd] at hlt
            omega
          · exact hlen hlen'
        rw [if_neg hguard]
        simp only []
        have hWseg : W ≤ (advSeg (sub32 now delta) m.values).length := Nat.le_of_not_lt hlen
        have hslopes : slideLoop W ((advSeg (sub32 now delta) m.values).take W)
              ((advSeg (sub32 now delta) m.values).drop W)
              (windowAvg ((advSeg (sub32 now delta) m.values).take W) W)
            = specSlopes (advSeg (sub32 now delta) m.values) W := by
          rw [slideLoop_eq_zip W _ ((advSeg (sub32 now delta) m.values).take W)]
          rw [allWindows_take_drop W (advSeg (sub32 now delta) m.values) (by omega) hWseg]
          rfl
        rw [hslopes]
        constructor
        · rw [CalculateSlopeFromType_eq_none_iff]
          constructor
          · intro hnone
            refine Or.inr (Or.inr ?_)
            have hlen0 := congrArg List.length hnone
            rw [← hslopes, slideLoop_length, List.length_drop] at hlen0
            rw [List.length_nil] at hlen0
            omega
          · rintro (hW2 | hall | hlt)
            · omega
            · exact absurd hall hnotall
            · have hdrop : (advSeg (sub32 now delta) m.values).drop W = [] := by
                rw [← List.length_eq_zero, List.length_drop]
                omega
              rw [← hslopes, hdrop]
              rfl
        · intro r hr
          exact hr

/-- Witness for C8: three samples, window size 2, full range — the call
returns the average of the two moving-average slopes, `3/200`, which the
characterization equates with the spec-side slope series reduction. -/
theorem C8_witness :
    CalculateSlopeFromType (specSlopes (advSeg (sub32 200 200)
        (monWith [(1, 0), (2, 100), (4, 200)]).values) 2) SlopeCalculationType.AVERAGE
      = some (3 / 200) := by
  refine (C8_advanced_slope_characterization (monWith [(1, 0), (2, 100), (4, 200)]) 200 200
    SlopeCalculationType.AVERAGE 2 (by decide)).2 (3 / 200) ?_
  norm_num [GetAdvancedSlopeOverDeltaTime, advSeg, backWalk, slideLoop, windowAvg,
    CalculateSlopeFromType, sub32, u32, monWith, List.foldl]
  exact fun h => absurd h (by decide)
